import Mathlib

/-! The program `get_cert`: fetching, matching, persisting and installing an SSH
certificate.

A shallow embedding of `get_cert/get_cert.go` (functions `main` and `findKeyLocally`).
Go strings and byte slices are lists of byte values. Everything the program obtains from
outside the process (environment, command line, configuration, network, SSH library,
agent, file system, clock, the `ssh-add` child process) is a field of `World`; a run is
the list of its externally visible actions together with the way the process ends.
-/

namespace get_cert

/-! ## Go strings -/

/-- A Go `string` or `[]byte`: a sequence of byte values. -/
abbrev GoString := List Nat

/-- The bytes of an ASCII string literal. -/
def lit (s : String) : GoString := s.toList.map Char.toNat

namespace strings

/-- Go `strings.HasPrefix`: `len(s) >= len(prefix) && s[0:len(prefix)] == prefix`. -/
def HasPrefix (s pre : GoString) : Bool :=
  decide (pre.length ≤ s.length) && (s.take pre.length == pre)

/-- Go `strings.HasSuffix`:
`len(s) >= len(suffix) && s[len(s)-len(suffix):] == suffix`. -/
def HasSuffix (s suffix : GoString) : Bool :=
  decide (suffix.length ≤ s.length) && (s.drop (s.length - suffix.length) == suffix)

/-- Go `strings.TrimSuffix`: `s` without the trailing `suffix`, or `s` itself when it does
not end in `suffix`. -/
def TrimSuffix (s suffix : GoString) : GoString :=
  if HasSuffix s suffix then s.take (s.length - suffix.length) else s

/-- Go `strings.Index`: the offset of the first occurrence of `substr` in the string,
`none` standing for the result -1. -/
def Index : GoString → GoString → Option Nat
  | [], substr => if substr = [] then some 0 else none
  | c :: t, substr =>
    if HasPrefix (c :: t) substr then some 0 else (Index t substr).map (· + 1)

/-- Go `strings.LastIndex`: the offset of the last occurrence of `substr` in the string,
`none` standing for the result -1. -/
def LastIndex : GoString → GoString → Option Nat
  | [], substr => if substr = [] then some 0 else none
  | c :: t, substr =>
    match LastIndex t substr with
    | some i => some (i + 1)
    | none => if HasPrefix (c :: t) substr then some 0 else none

/-- Go `strings.Replace(s, old, new, 1)`, the only way `main` calls it: `s` itself when
`old == new` or `old` does not occur, otherwise `s` with the first occurrence of `old`
replaced by `new` (an empty `old` occurs at offset 0). -/
def Replace1 (s old new : GoString) : GoString :=
  if old = new then s
  else match Index s old with
    | none => s
    | some j => s.take j ++ new ++ s.drop (j + old.length)

/-- The string `s` with its last occurrence of `old` deleted. -/
def deleteLast (s old : GoString) : GoString :=
  match LastIndex s old with
  | none => s
  | some j => s.take j ++ s.drop (j + old.length)

end strings

/-- The literal `".pub"`. -/
def dotPub : GoString := [46, 112, 117, 98]

/-- The literal `"-cert.pub"`. -/
def certPub : GoString := [45, 99, 101, 114, 116, 46, 112, 117, 98]

namespace strings

/-- The pattern `old` occurs in `s` at offset `a.length`, and nowhere to the left of it. -/
def FirstAt (s old a b : GoString) : Prop :=
  s = a ++ old ++ b ∧ ∀ a' b', s = a' ++ old ++ b' → a.length ≤ a'.length

end strings

/-! ## Data model of `get_cert` -/

/-- A Go `error` value, carried as its message. -/
abbrev GoError := GoString

/-- The fields of `ssh.Certificate` read by `main`; `K` is the type of `ssh.PublicKey` values. -/
structure Certificate (K : Type) where
  Key : K
  ValidBefore : Nat
  deriving DecidableEq

/-- The field of `ssh_ca_util.RequesterConfig` read by `main`. -/
structure RequesterConfig where
  SignerUrl : GoString
  deriving DecidableEq

/-- An `http.Response`: status code and the outcome of `ioutil.ReadAll` on its body. -/
structure Response where
  StatusCode : Int
  Body : Except GoError GoString

/-- Everything `main` and `findKeyLocally` obtain from outside the process. The functions
of the packages `ssh_ca_util`, `net/http`, `ssh`, `net`, `agent`, `ioutil`, `time` and
`os/exec` are taken as they are found, as arbitrary functions of their arguments. -/
structure World (K : Type) where
  /-- The value of `os.Getenv("HOME")`. -/
  HOME : GoString
  /-- The value of `os.Getenv("SSH_AUTH_SOCK")`. -/
  SSH_AUTH_SOCK : GoString
  /-- The flag `--version`, after `flag.Parse()`. -/
  printVersion : Bool
  /-- The flag `--environment`, after `flag.Parse()`. -/
  environment : GoString
  /-- The positional arguments `flag.Args()`. -/
  args : List GoString
  /-- The map `ssh_ca_util.LoadConfig` fills for a configuration path, as the list of its
  entries, or its error. -/
  LoadConfig : GoString → Except GoError (List (GoString × RequesterConfig))
  /-- The result of `http.Get` for a URL. -/
  httpGet : GoString → Except GoError Response
  /-- The key returned by `ssh.ParseAuthorizedKey`, or its error. -/
  ParseAuthorizedKey : GoString → Except GoError K
  /-- The method `Marshal` of `ssh.PublicKey`. -/
  Marshal : K → GoString
  /-- The type assertion `.(*ssh.Certificate)`: `none` when the key is not a certificate. -/
  asCertificate : K → Option (Certificate K)
  /-- The result of `net.Dial("unix", addr)`. -/
  Dial : GoString → Except GoError Unit
  /-- The result of `sshAgent.Remove`. -/
  agentRemove : K → Except GoError Unit
  /-- The entry names `ioutil.ReadDir` returns for a directory, in its order, or its error. -/
  ReadDir : GoString → Except GoError (List GoString)
  /-- The result of `ioutil.ReadFile` for a path. -/
  ReadFile : GoString → Except GoError GoString
  /-- The result of `ioutil.WriteFile(path, data, 0644)`. -/
  WriteFile : GoString → GoString → Except GoError Unit
  /-- The value of `time.Now().Unix()`, an `int64`. -/
  now : Int
  /-- The result of running `ssh-add -t ttl privKeyPath`. -/
  sshAdd : Int → GoString → Except GoError Unit

/-- The four error returns of `findKeyLocally`, with the arguments of their `fmt.Errorf`. -/
inductive FindErr where
  | readDir (sshDir : GoString) (err : GoError)
  | readFile (pubKeyPath : GoString) (err : GoError)
  | parse (pubKeyPath : GoString) (err : GoError)
  | notFound
  deriving DecidableEq

/-- The print statements of `main`, one constructor per statement, with their arguments. -/
inductive Msg where
  | version
  | usage
  | loadConfigFailed (err : GoError)
  | specifyCertRequestId
  | mustTellEnvironment (n : Nat)
  | environmentNotFound
  | invalidResponse (err : GoError)
  | errorReadingBody (err : GoError)
  | errorGettingRequest (body : GoString)
  | troubleParsing (err : GoError)
  | dialFailed (err : GoError)
  | findKey (err : FindErr)
  | couldntWrite (pubKeyPath : GoString) (err : GoError)
  | alreadyExpired
  | errorInSshAdd
  deriving DecidableEq

/-- Externally visible actions of a run, in program order. Each event records a call and
its arguments; the outcome of the call is given by the world. -/
inductive Event (K : Type) where
  /-- A `fmt.Println` or `fmt.Printf` of `main`. -/
  | print (m : Msg)
  /-- The call `ssh_ca_util.LoadConfig(configPath, &allConfig)`. -/
  | loadConfig (configPath : GoString)
  /-- The call `http.Get(url)`. -/
  | httpGet (url : GoString)
  /-- The call `net.Dial("unix", addr)`. -/
  | dial (addr : GoString)
  /-- The call `sshAgent.Remove(key)`. -/
  | agentRemove (key : K)
  /-- The call `findKeyLocally(key)`, which reads the key store. -/
  | findKeyLocally (key : K)
  /-- The call `ioutil.WriteFile(path, data, 0644)`. -/
  | writeFile (path : GoString) (data : GoString)
  /-- The call `ssh_ca_util.PrintForInspection(*cert)`. -/
  | printForInspection (cert : Certificate K)
  /-- The run of `ssh-add -t ttl privKeyPath`. -/
  | sshAdd (ttl : Int) (privKeyPath : GoString)
  deriving DecidableEq

/-- How the process ends: `main` returns, `os.Exit(code)`, or a run-time panic. -/
inductive Outcome where
  | returned
  | exit (code : Nat)
  | panic
  deriving DecidableEq

/-- The exit status the operating system sees. -/
def Outcome.status : Outcome → Nat
  | .returned => 0
  | .exit code => code
  | .panic => 2

/-! ## `findKeyLocally` -/

/-- The loop of `findKeyLocally` over `dirEntries`. -/
def findKeyLocally.scan {K : Type} (w : World K) (sshDir : GoString) (key : K) :
    List GoString → Except FindErr GoString
  | [] => .error .notFound
  | name :: rest =>
    if strings.HasSuffix name dotPub then
      let pubKeyPath := sshDir ++ lit "/" ++ name
      match w.ReadFile pubKeyPath with
      | .error err => .error (.readFile pubKeyPath err)
      | .ok pubBuf =>
        match w.ParseAuthorizedKey pubBuf with
        | .error err => .error (.parse pubKeyPath err)
        | .ok pubKey =>
          if w.Marshal pubKey = w.Marshal key then .ok pubKeyPath
          else findKeyLocally.scan w sshDir key rest
    else findKeyLocally.scan w sshDir key rest

/-- Lines 133-157. The pair `(path, err)` it returns is `.ok path` when `err == nil` and
`.error err` otherwise, in which case the path is the empty string. -/
def findKeyLocally {K : Type} (w : World K) (key : K) : Except FindErr GoString :=
  let sshDir := w.HOME ++ lit "/.ssh"
  match w.ReadDir sshDir with
  | .error err => .error (.readDir sshDir err)
  | .ok dirEntries => findKeyLocally.scan w sshDir key dirEntries

/-! ## `main` -/

/-- Conversion to `int64`: the value modulo `2^64`, read as two's complement. -/
def toInt64 (x : Int) : Int := (x + 2 ^ 63) % 2 ^ 64 - 2 ^ 63

/-- Line 115: `int64(cert.ValidBefore) - int64(time.Now().Unix())`. -/
def secondsRemaining (validBefore : Nat) (now : Int) : Int :=
  toInt64 (toInt64 (validBefore : Int) - toInt64 now)

/-- Lines 22-108 of `main`: up to and including the call of `findKeyLocally`. The trace is
paired with either the way the process ended or the values of `cert`, `getRespBuf`
and `pubKeyPath` at line 109. -/
def fetchAndMatch {K : Type} (w : World K) :
    List (Event K) × Except Outcome (Certificate K × GoString × GoString) :=
  let home := if w.HOME = [] then lit "/" else w.HOME
  let configPath := home ++ lit "/.ssh_ca/requester_config.json"
  if w.printVersion then ([.print .version], .error (.exit 0))
  else if w.args.length < 1 then ([.print .usage], .error (.exit 1))
  else
    let certRequestID := w.args.headD []
    match w.LoadConfig configPath with
    | .error err => ([.loadConfig configPath, .print (.loadConfigFailed err)], .error (.exit 1))
    | .ok allConfig =>
      if certRequestID = [] then
        ([.loadConfig configPath, .print .specifyCertRequestId], .error (.exit 1))
      else if 1 < allConfig.length ∧ w.environment = [] then
        ([.loadConfig configPath, .print (.mustTellEnvironment allConfig.length)],
          .error (.exit 1))
      else
        let environment :=
          match allConfig with
          | [(name, _)] => if w.environment = [] then name else w.environment
          | _ => w.environment
        match allConfig.lookup environment with
        | none => ([.loadConfig configPath, .print .environmentNotFound], .error (.exit 1))
        | some config =>
          let url := config.SignerUrl ++ lit "cert/requests/" ++ certRequestID
          match w.httpGet url with
          | .error err =>
            ([.loadConfig configPath, .httpGet url, .print (.invalidResponse err)],
              .error (.exit 1))
          | .ok getResp =>
            match getResp.Body with
            | .error err =>
              ([.loadConfig configPath, .httpGet url, .print (.errorReadingBody err)],
                .error (.exit 1))
            | .ok getRespBuf =>
              if getResp.StatusCode ≠ 200 then
                ([.loadConfig configPath, .httpGet url,
                  .print (.errorGettingRequest getRespBuf)], .error (.exit 1))
              else
                match w.ParseAuthorizedKey getRespBuf with
                | .error err =>
                  ([.loadConfig configPath, .httpGet url, .print (.troubleParsing err)],
                    .error (.exit 1))
                | .ok pubKey =>
                  match w.asCertificate pubKey with
                  | none => ([.loadConfig configPath, .httpGet url], .error .panic)
                  | some cert =>
                    let addr := w.SSH_AUTH_SOCK
                    match w.Dial addr with
                    | .error err =>
                      ([.loadConfig configPath, .httpGet url, .dial addr,
                        .print (.dialFailed err)], .error (.exit 1))
                    | .ok _ =>
                      match findKeyLocally w cert.Key with
                      | .error err =>
                        ([.loadConfig configPath, .httpGet url, .dial addr,
                          .agentRemove cert.Key, .findKeyLocally cert.Key,
                          .print (.findKey err)], .error (.exit 1))
                      | .ok pubKeyPath =>
                        ([.loadConfig configPath, .httpGet url, .dial addr,
                          .agentRemove cert.Key, .findKeyLocally cert.Key],
                          .ok (cert, getRespBuf, pubKeyPath))

/-- Lines 110-113 of `main`: write the certificate file; a failure is reported and
otherwise ignored. -/
def persist {K : Type} (w : World K) (pubKeyPath getRespBuf : GoString) : List (Event K) :=
  match w.WriteFile pubKeyPath getRespBuf with
  | .error err => [.writeFile pubKeyPath getRespBuf, .print (.couldntWrite pubKeyPath err)]
  | .ok _ => [.writeFile pubKeyPath getRespBuf]

/-- Lines 115-131 of `main`: check expiry, then run `ssh-add` on the private key that
belongs to the certificate path `pubKeyPath`. -/
def install {K : Type} (w : World K) (cert : Certificate K) (pubKeyPath : GoString) :
    List (Event K) × Outcome :=
  let secondsRemaining := secondsRemaining cert.ValidBefore w.now
  if secondsRemaining < 1 then ([.print .alreadyExpired], .exit 1)
  else
    let privKeyPath := strings.Replace1 pubKeyPath certPub []
    match w.sshAdd secondsRemaining privKeyPath with
    | .error _ =>
      ([.printForInspection cert, .sshAdd secondsRemaining privKeyPath,
        .print .errorInSshAdd], .exit 1)
    | .ok _ => ([.printForInspection cert, .sshAdd secondsRemaining privKeyPath], .returned)

/-- Lines 109-131 of `main`: derive the certificate path, persist the certificate, check
expiry and run `ssh-add`. -/
def persistAndInstall {K : Type} (w : World K) (cert : Certificate K)
    (getRespBuf pubKeyPath0 : GoString) : List (Event K) × Outcome :=
  let pubKeyPath := strings.Replace1 pubKeyPath0 dotPub certPub
  let written := persist w pubKeyPath getRespBuf
  let rest := install w cert pubKeyPath
  (written ++ rest.1, rest.2)

/-- Lines 21-131: the run of the program in the world `w`. -/
def main {K : Type} (w : World K) : List (Event K) × Outcome :=
  match fetchAndMatch w with
  | (trace, .error outcome) => (trace, outcome)
  | (trace, .ok (cert, getRespBuf, pubKeyPath)) =>
    let rest := persistAndInstall w cert getRespBuf pubKeyPath
    (trace ++ rest.1, rest.2)

/-- The world `w` with other outcomes for the certificate file write and for the agent
removal, everything else unchanged. -/
def World.withOutcomes {K : Type} (w : World K)
    (wf : GoString → GoString → Except GoError Unit) (ar : K → Except GoError Unit) :
    World K :=
  { w with WriteFile := wf, agentRemove := ar }

/-- The world `w` with `entries` as the enumeration of every directory, everything else
unchanged. -/
def World.withEntries {K : Type} (w : World K) (entries : List GoString) : World K :=
  { w with ReadDir := fun _ => .ok entries }

/-! ## Predicates on directory entries and events -/


/-- The path `findKeyLocally` builds for the entry `name`. -/
def entryPath (sshDir name : GoString) : GoString := sshDir ++ lit "/" ++ name

/-- The public key held by the entry `name`: defined when the name ends in `.pub`, the file
can be read and its content parses. -/
def entryKey {K : Type} (w : World K) (sshDir name : GoString) : Option K :=
  if strings.HasSuffix name dotPub then
    match w.ReadFile (entryPath sshDir name) with
    | .error _ => none
    | .ok pubBuf =>
      match w.ParseAuthorizedKey pubBuf with
      | .error _ => none
      | .ok pubKey => some pubKey
  else none

/-- The entry is a `.pub` entry that cannot be read or cannot be parsed. -/
def uninspectable {K : Type} (w : World K) (sshDir name : GoString) : Bool :=
  strings.HasSuffix name dotPub && (entryKey w sshDir name).isNone

/-- The entry is a readable, parseable `.pub` entry whose key marshals to the bytes of
`key`. -/
def matchesKey {K : Type} (w : World K) (sshDir : GoString) (key : K) (name : GoString) :
    Bool :=
  match entryKey w sshDir name with
  | some pubKey => decide (w.Marshal pubKey = w.Marshal key)
  | none => false

/-- The error is one of the two read/parse errors of the loop. -/
def FindErr.isReadOrParse : FindErr → Bool
  | .readFile _ _ => true
  | .parse _ _ => true
  | _ => false


/-- The event is a run of `ssh-add`. -/
def Event.isSshAdd {K : Type} : Event K → Bool
  | .sshAdd _ _ => true
  | _ => false

/-- The event is a call of `ioutil.WriteFile`. -/
def Event.isWriteFile {K : Type} : Event K → Bool
  | .writeFile _ _ => true
  | _ => false

/-- Every event except the report of a failed certificate write (line 112). -/
def Event.isAction {K : Type} : Event K → Bool
  | .print (.couldntWrite _ _) => false
  | _ => true

/-- The event is a print statement. -/
def Event.isPrint {K : Type} : Event K → Bool
  | .print _ => true
  | _ => false

/-! ## Sample worlds -/

/-- A small key type for concrete runs: a bare key, or a certificate over a bare key with
its validity-before timestamp. -/
inductive SampleKey where
  | bare (id : Nat)
  | cert (id : Nat) (validBefore : Nat)
  deriving DecidableEq

/-- The wire encoding of a sample key. -/
def sampleMarshal : SampleKey → GoString
  | .bare id => lit "ssh-ed25519 " ++ [id]
  | .cert id _ => lit "ssh-ed25519-cert-v01@openssh.com " ++ [id]

/-- The type assertion `pubKey.(*ssh.Certificate)` on sample keys. -/
def sampleAsCertificate : SampleKey → Option (Certificate SampleKey)
  | .bare _ => none
  | .cert id validBefore => some ⟨.bare id, validBefore⟩

/-- The keys that the sample file contents and response bodies parse to. -/
def sampleKeys : List (GoString × SampleKey) :=
  [(lit "key-7", .bare 7), (lit "key-8", .bare 8),
    (lit "cert-7", .cert 7 1700003600),
    (lit "cert-7-forever", .cert 7 18446744073709551615)]

/-- A world in which configuration, fetch, agent connection, write and `ssh-add` succeed:
the home directory is `home`, every directory lists `names`, `files` gives the readable
files with their contents, the signer answers status 200 with `body`, and the clock
shows `now`. -/
def sampleWorld (home : GoString) (names : List GoString) (files : List (GoString × GoString))
    (body : GoString) (now : Int) : World SampleKey where
  HOME := home
  SSH_AUTH_SOCK := lit "/tmp/agent.sock"
  printVersion := false
  environment := []
  args := [lit "42"]
  LoadConfig := fun _ => .ok [(lit "prod", ⟨lit "https://ca.example/"⟩)]
  httpGet := fun _ => .ok ⟨200, .ok body⟩
  ParseAuthorizedKey := fun b =>
    match sampleKeys.lookup b with
    | some k => .ok k
    | none => .error (lit "ssh: no key found")
  Marshal := sampleMarshal
  asCertificate := sampleAsCertificate
  Dial := fun _ => .ok ()
  agentRemove := fun _ => .ok ()
  ReadDir := fun _ => .ok names
  ReadFile := fun path =>
    match files.lookup path with
    | some buf => .ok buf
    | none => .error (lit "permission denied")
  WriteFile := fun _ _ => .ok ()
  now := now
  sshAdd := fun _ _ => .ok ()

/-- One key `id_ed25519.pub`, matching the certificate, which is valid for another hour. -/
def worldValid : World SampleKey :=
  sampleWorld (lit "/home/u") [lit "id_ed25519.pub"]
    [(lit "/home/u/.ssh/id_ed25519.pub", lit "key-7")] (lit "cert-7") 1700000000

/-- As `worldValid`, one second after the certificate's validity-before time. -/
def worldExpired : World SampleKey :=
  sampleWorld (lit "/home/u") [lit "id_ed25519.pub"]
    [(lit "/home/u/.ssh/id_ed25519.pub", lit "key-7")] (lit "cert-7") 1700003601

/-- As `worldValid`, with a certificate whose validity-before is `ssh.CertTimeInfinity`. -/
def worldForever : World SampleKey :=
  sampleWorld (lit "/home/u") [lit "id_ed25519.pub"]
    [(lit "/home/u/.ssh/id_ed25519.pub", lit "key-7")] (lit "cert-7-forever") 1700000000

/-- As `worldValid`, but the signer answers with a bare public key. -/
def worldBareKey : World SampleKey :=
  sampleWorld (lit "/home/u") [lit "id_ed25519.pub"]
    [(lit "/home/u/.ssh/id_ed25519.pub", lit "key-7")] (lit "key-7") 1700000000

/-- As `worldValid`, but every file write fails. -/
def worldWriteFails : World SampleKey :=
  { worldValid with WriteFile := fun _ _ => .error (lit "read-only file system") }

/-- The matching key is stored as `x.pubkey.pub`. -/
def worldPubInName : World SampleKey :=
  sampleWorld (lit "/home/u") [lit "x.pubkey.pub"]
    [(lit "/home/u/.ssh/x.pubkey.pub", lit "key-7")] (lit "cert-7") 1700000000

/-- The home directory is `/home/bob.pub`. -/
def worldPubInHome : World SampleKey :=
  sampleWorld (lit "/home/bob.pub") [lit "id_rsa.pub"]
    [(lit "/home/bob.pub/.ssh/id_rsa.pub", lit "key-7")] (lit "cert-7") 1700000000

/-- The matching `a.pub` is listed before the unreadable `b.pub`. -/
def worldMatchThenBad : World SampleKey :=
  sampleWorld (lit "/home/u") [lit "a.pub", lit "b.pub"]
    [(lit "/home/u/.ssh/a.pub", lit "key-7")] (lit "cert-7") 1700000000

/-- The unreadable `bad.pub` is listed before the only matching entry `id.pub`. -/
def worldBadThenMatch : World SampleKey :=
  sampleWorld (lit "/home/u") [lit "bad.pub", lit "id.pub"]
    [(lit "/home/u/.ssh/id.pub", lit "key-7")] (lit "cert-7") 1700000000

/-- Two readable keys, `other.pub` holding a different key and `id.pub` the matching one,
next to a file that is not a public key. -/
def worldTwoKeys : World SampleKey :=
  sampleWorld (lit "/home/u") [lit "config", lit "other.pub", lit "id.pub"]
    [(lit "/home/u/.ssh/other.pub", lit "key-8"), (lit "/home/u/.ssh/id.pub", lit "key-7")]
    (lit "cert-7") 1700000000

/-- Only a different key is stored. -/
def worldNoMatch : World SampleKey :=
  sampleWorld (lit "/home/u") [lit "config", lit "other.pub"]
    [(lit "/home/u/.ssh/other.pub", lit "key-8")] (lit "cert-7") 1700000000

/-! ## Go strings: properties -/

theorem dotPub_eq : dotPub = lit ".pub" := by decide

theorem certPub_eq : certPub = lit "-cert.pub" := by decide

namespace strings

theorem hasPrefix_iff (s pre : GoString) : HasPrefix s pre = true ↔ pre <+: s := by
  unfold HasPrefix
  rw [List.prefix_iff_eq_take]
  constructor
  · intro h
    simp only [Bool.and_eq_true, decide_eq_true_eq, beq_iff_eq] at h
    exact h.2.symm
  · intro h
    have hl : pre.length ≤ s.length := by
      have := congrArg List.length h
      simp at this
      omega
    simp only [Bool.and_eq_true, decide_eq_true_eq, beq_iff_eq]
    exact ⟨hl, h.symm⟩

theorem hasSuffix_iff (s suf : GoString) : HasSuffix s suf = true ↔ suf <:+ s := by
  unfold HasSuffix
  constructor
  · intro h
    simp only [Bool.and_eq_true, decide_eq_true_eq, beq_iff_eq] at h
    refine ⟨s.take (s.length - suf.length), ?_⟩
    have h2 := List.take_append_drop (s.length - suf.length) s
    rw [h.2] at h2
    exact h2
  · rintro ⟨a, rfl⟩
    simp

theorem index_some (s sub : GoString) (j : Nat) (h : Index s sub = some j) :
    ∃ a b, FirstAt s sub a b ∧ a.length = j := by
  induction s generalizing j with
  | nil =>
    unfold Index at h
    split at h
    · rename_i hs
      subst hs
      cases h
      exact ⟨[], [], ⟨by simp, by simp⟩, rfl⟩
    · cases h
  | cons c t ih =>
    unfold Index at h
    split at h
    · rename_i hp
      cases h
      obtain ⟨b, hb⟩ := (hasPrefix_iff _ _).1 hp
      exact ⟨[], b, ⟨by simp [hb], by simp⟩, rfl⟩
    · rename_i hp
      cases hi : Index t sub with
      | none => simp [hi] at h
      | some j' =>
        simp [hi] at h
        obtain ⟨a, b, ⟨hab, hmin⟩, hj⟩ := ih j' hi
        refine ⟨c :: a, b, ⟨by simp [hab], ?_⟩, by simp [hj, h]⟩
        intro a' b' h'
        cases a' with
        | nil =>
          exfalso
          apply hp
          rw [hasPrefix_iff]
          exact ⟨b', by simpa using h'.symm⟩
        | cons c' a'' =>
          simp only [List.cons_append, List.cons.injEq] at h'
          have := hmin a'' b' (by simpa using h'.2)
          simp
          omega

theorem index_none (s sub : GoString) (h : Index s sub = none) (a b : GoString) :
    s ≠ a ++ sub ++ b := by
  induction s generalizing a with
  | nil =>
    unfold Index at h
    split at h
    · cases h
    · rename_i hs
      intro e
      apply hs
      have := congrArg List.length e
      simp at this
      exact List.length_eq_zero.1 (by omega)
  | cons c t ih =>
    unfold Index at h
    split at h
    · cases h
    · rename_i hp
      intro e
      cases a with
      | nil =>
        apply hp
        rw [hasPrefix_iff]
        exact ⟨b, by simpa using e.symm⟩
      | cons c' a' =>
        simp only [List.cons_append, List.cons.injEq] at e
        cases hi : Index t sub with
        | none => exact ih hi a' (by simpa using e.2)
        | some j => simp [hi] at h

theorem index_of_firstAt (s sub a b : GoString) (h : FirstAt s sub a b) :
    Index s sub = some a.length := by
  cases hi : Index s sub with
  | none => exact absurd h.1 (index_none s sub hi a b)
  | some j =>
    obtain ⟨a0, b0, h0, hj⟩ := index_some s sub j hi
    have h1 := h.2 a0 b0 h0.1
    have h2 := h0.2 a b h.1
    congr 1
    omega

theorem replace1_of_firstAt (s old new a b : GoString) (hne : old ≠ new)
    (h : FirstAt s old a b) : Replace1 s old new = a ++ new ++ b := by
  unfold Replace1
  rw [if_neg hne, index_of_firstAt s old a b h]
  simp only
  rw [h.1]
  simp [List.take_append_eq_append_take, List.drop_append_eq_append_drop]

theorem replace1_of_absent (s old new : GoString) (h : Index s old = none) :
    Replace1 s old new = s := by
  unfold Replace1
  split
  · rfl
  · rw [h]

end strings

namespace strings

theorem firstAt_cert (p a b : GoString) (h : FirstAt p dotPub a b) :
    FirstAt (a ++ certPub ++ b) certPub a b := by
  refine ⟨rfl, ?_⟩
  intro a' b' e
  by_contra hlt
  rw [List.append_assoc, List.append_assoc, List.append_eq_append_iff] at e
  rcases e with ⟨x, hx, -⟩ | ⟨x, hx, e⟩
  · apply hlt
    rw [hx]
    simp
  · have hxl : 0 < x.length := by
      have := congrArg List.length hx
      simp at this
      omega
    rcases x with _ | ⟨x0, _ | ⟨x1, _ | ⟨x2, _ | ⟨x3, _ | ⟨x4, _ | ⟨x5, _ | ⟨x6, _ | ⟨x7, _ | ⟨x8, y⟩⟩⟩⟩⟩⟩⟩⟩⟩
    all_goals simp [certPub] at e
    · simp at hxl
    · obtain ⟨r0, r1, r2, r3, r4, r5, r6, r7, r8, -⟩ := e
      subst r0 r1 r2 r3 r4 r5 r6 r7 r8
      have hp : p = (a' ++ [45, 99, 101, 114, 116]) ++ dotPub ++ (y ++ dotPub ++ b) := by
        rw [h.1, hx]
        simp [dotPub]
      have := h.2 _ _ hp
      rw [hx] at this
      simp at this

theorem absent_cert (p : GoString) (h : Index p dotPub = none) : Index p certPub = none := by
  cases hi : Index p certPub with
  | none => rfl
  | some j =>
    obtain ⟨a, b, ⟨hab, -⟩, -⟩ := index_some p certPub j hi
    exfalso
    apply index_none p dotPub h (a ++ [45, 99, 101, 114, 116]) b
    rw [hab]
    simp [certPub, dotPub]

theorem replace_compose (p : GoString) :
    Replace1 (Replace1 p dotPub certPub) certPub [] = Replace1 p dotPub [] := by
  cases hi : Index p dotPub with
  | none =>
    rw [replace1_of_absent p dotPub certPub hi, replace1_of_absent p dotPub [] hi,
      replace1_of_absent p certPub [] (absent_cert p hi)]
  | some j =>
    obtain ⟨a, b, hf, -⟩ := index_some p dotPub j hi
    rw [replace1_of_firstAt p dotPub certPub a b (by decide) hf,
      replace1_of_firstAt p dotPub [] a b (by decide) hf,
      replace1_of_firstAt _ certPub [] a b (by decide) (firstAt_cert p a b hf)]

end strings

/-! ## Properties of the key-store scan -/

theorem scan_cons {K : Type} (w : World K) (sshDir : GoString) (key : K)
    (name : GoString) (rest : List GoString) :
    findKeyLocally.scan w sshDir key (name :: rest) =
      if strings.HasSuffix name dotPub then
        match w.ReadFile (entryPath sshDir name) with
        | .error err => .error (.readFile (entryPath sshDir name) err)
        | .ok pubBuf =>
          match w.ParseAuthorizedKey pubBuf with
          | .error err => .error (.parse (entryPath sshDir name) err)
          | .ok pubKey =>
            if w.Marshal pubKey = w.Marshal key then .ok (entryPath sshDir name)
            else findKeyLocally.scan w sshDir key rest
      else findKeyLocally.scan w sshDir key rest := rfl

theorem matchesKey_iff {K : Type} (w : World K) (sshDir : GoString) (key : K)
    (name : GoString) :
    matchesKey w sshDir key name = true ↔
      strings.HasSuffix name dotPub = true ∧
      ∃ pubBuf pubKey, w.ReadFile (entryPath sshDir name) = .ok pubBuf ∧
        w.ParseAuthorizedKey pubBuf = .ok pubKey ∧ w.Marshal pubKey = w.Marshal key := by
  unfold matchesKey entryKey
  cases hs : strings.HasSuffix name dotPub with
  | false => simp
  | true =>
    cases hr : w.ReadFile (entryPath sshDir name) with
    | error err => simp
    | ok pubBuf =>
      cases hp : w.ParseAuthorizedKey pubBuf with
      | error err => simp [hp]
      | ok pubKey => simp [hp]

theorem scan_cons_skip {K : Type} (w : World K) (sshDir : GoString) (key : K)
    (name : GoString) (rest : List GoString) (h : strings.HasSuffix name dotPub = false) :
    findKeyLocally.scan w sshDir key (name :: rest) = findKeyLocally.scan w sshDir key rest := by
  rw [scan_cons, h]
  simp

theorem scan_cons_match {K : Type} (w : World K) (sshDir : GoString) (key : K)
    (name : GoString) (rest : List GoString) (h : matchesKey w sshDir key name = true) :
    findKeyLocally.scan w sshDir key (name :: rest) = .ok (entryPath sshDir name) := by
  obtain ⟨hs, pubBuf, pubKey, hr, hp, hm⟩ := (matchesKey_iff w sshDir key name).1 h
  rw [scan_cons, hs, hr]
  simp [hp, hm]

theorem scan_cons_bad {K : Type} (w : World K) (sshDir : GoString) (key : K)
    (name : GoString) (rest : List GoString) (h : uninspectable w sshDir name = true) :
    ∃ err, findKeyLocally.scan w sshDir key (name :: rest) = .error err ∧
      err.isReadOrParse = true := by
  unfold uninspectable entryKey at h
  rw [scan_cons]
  cases hs : strings.HasSuffix name dotPub with
  | false => simp [hs] at h
  | true =>
    cases hr : w.ReadFile (entryPath sshDir name) with
    | error err => exact ⟨.readFile (entryPath sshDir name) err, by simp, rfl⟩
    | ok pubBuf =>
      cases hp : w.ParseAuthorizedKey pubBuf with
      | error err => exact ⟨.parse (entryPath sshDir name) err, by simp [hp], rfl⟩
      | ok pubKey => simp [hs, hr, hp] at h

theorem scan_cons_differs {K : Type} (w : World K) (sshDir : GoString) (key : K)
    (name : GoString) (rest : List GoString) (hi : uninspectable w sshDir name = false)
    (hm : matchesKey w sshDir key name = false) :
    findKeyLocally.scan w sshDir key (name :: rest) = findKeyLocally.scan w sshDir key rest := by
  unfold uninspectable at hi
  unfold matchesKey at hm
  unfold entryKey at hi hm
  rw [scan_cons]
  cases hs : strings.HasSuffix name dotPub with
  | false => simp
  | true =>
    cases hr : w.ReadFile (entryPath sshDir name) with
    | error err => simp [hs, hr] at hi
    | ok pubBuf =>
      cases hp : w.ParseAuthorizedKey pubBuf with
      | error err => simp [hs, hr, hp] at hi
      | ok pubKey =>
        have : ¬ w.Marshal pubKey = w.Marshal key := by simpa [hs, hr, hp] using hm
        simp [hp, this]

theorem scan_first_match {K : Type} (w : World K) (sshDir : GoString) (key : K)
    (pre : List GoString) (e : GoString) (post : List GoString)
    (hpre : ∀ n ∈ pre, uninspectable w sshDir n = false ∧ matchesKey w sshDir key n = false)
    (he : matchesKey w sshDir key e = true) :
    findKeyLocally.scan w sshDir key (pre ++ e :: post) = .ok (entryPath sshDir e) := by
  induction pre with
  | nil => exact scan_cons_match w sshDir key e post he
  | cons n pre ih =>
    have hn := hpre n (List.mem_cons_self n pre)
    rw [List.cons_append, scan_cons_differs w sshDir key n _ hn.1 hn.2]
    exact ih (fun m hm => hpre m (List.mem_cons_of_mem n hm))

theorem scan_abort {K : Type} (w : World K) (sshDir : GoString) (key : K)
    (pre : List GoString) (e : GoString) (post : List GoString)
    (hpre : ∀ n ∈ pre, matchesKey w sshDir key n = false)
    (he : uninspectable w sshDir e = true) :
    ∃ err, findKeyLocally.scan w sshDir key (pre ++ e :: post) = .error err ∧
      err.isReadOrParse = true := by
  induction pre with
  | nil => exact scan_cons_bad w sshDir key e post he
  | cons n pre ih =>
    rw [List.cons_append]
    cases hu : uninspectable w sshDir n with
    | true => exact scan_cons_bad w sshDir key n _ hu
    | false =>
      rw [scan_cons_differs w sshDir key n _ hu (hpre n (List.mem_cons_self n pre))]
      exact ih (fun m hm => hpre m (List.mem_cons_of_mem n hm))

theorem scan_not_found {K : Type} (w : World K) (sshDir : GoString) (key : K)
    (l : List GoString)
    (h : ∀ n ∈ l, uninspectable w sshDir n = false ∧ matchesKey w sshDir key n = false) :
    findKeyLocally.scan w sshDir key l = .error .notFound := by
  induction l with
  | nil => rfl
  | cons n l ih =>
    have hn := h n (List.mem_cons_self n l)
    rw [scan_cons_differs w sshDir key n _ hn.1 hn.2]
    exact ih (fun m hm => h m (List.mem_cons_of_mem n hm))

theorem scan_ok_sound {K : Type} (w : World K) (sshDir : GoString) (key : K)
    (l : List GoString) (p : GoString) (h : findKeyLocally.scan w sshDir key l = .ok p) :
    ∃ n ∈ l, matchesKey w sshDir key n = true ∧ p = entryPath sshDir n := by
  induction l with
  | nil => cases h
  | cons n l ih =>
    cases hm : matchesKey w sshDir key n with
    | true =>
      rw [scan_cons_match w sshDir key n l hm] at h
      cases h
      exact ⟨n, List.mem_cons_self n l, hm, rfl⟩
    | false =>
      cases hu : uninspectable w sshDir n with
      | true =>
        obtain ⟨err, he, -⟩ := scan_cons_bad w sshDir key n l hu
        rw [he] at h
        cases h
      | false =>
        rw [scan_cons_differs w sshDir key n l hu hm] at h
        obtain ⟨m, hml, hmm, hp⟩ := ih h
        exact ⟨m, List.mem_cons_of_mem n hml, hmm, hp⟩

theorem scan_finds_some {K : Type} (w : World K) (sshDir : GoString) (key : K)
    (l : List GoString) (hgood : ∀ n ∈ l, uninspectable w sshDir n = false)
    (hex : ∃ n ∈ l, matchesKey w sshDir key n = true) :
    ∃ n ∈ l, matchesKey w sshDir key n = true ∧
      findKeyLocally.scan w sshDir key l = .ok (entryPath sshDir n) := by
  induction l with
  | nil =>
    obtain ⟨n, hn, -⟩ := hex
    cases hn
  | cons n l ih =>
    cases hm : matchesKey w sshDir key n with
    | true => exact ⟨n, List.mem_cons_self n l, hm, scan_cons_match w sshDir key n l hm⟩
    | false =>
      rw [scan_cons_differs w sshDir key n l (hgood n (List.mem_cons_self n l)) hm]
      have hex2 : ∃ m ∈ l, matchesKey w sshDir key m = true := by
        obtain ⟨m, hml, hmm⟩ := hex
        rcases List.mem_cons.1 hml with rfl | hml
        · rw [hm] at hmm
          cases hmm
        · exact ⟨m, hml, hmm⟩
      obtain ⟨m, hml, hmm, hs⟩ := ih (fun m hm => hgood m (List.mem_cons_of_mem n hm)) hex2
      exact ⟨m, List.mem_cons_of_mem n hml, hmm, hs⟩

theorem findKeyLocally_of_readDir {K : Type} (w : World K) (key : K)
    (entries : List GoString) (h : w.ReadDir (w.HOME ++ lit "/.ssh") = .ok entries) :
    findKeyLocally w key = findKeyLocally.scan w (w.HOME ++ lit "/.ssh") key entries := by
  unfold findKeyLocally
  simp only [h]

theorem entryPath_hasSuffix (sshDir name : GoString)
    (h : strings.HasSuffix name dotPub = true) :
    strings.HasSuffix (entryPath sshDir name) dotPub = true := by
  rw [strings.hasSuffix_iff] at h ⊢
  obtain ⟨a, rfl⟩ := h
  exact ⟨sshDir ++ lit "/" ++ a, by simp [entryPath]⟩

/-! ## Properties of `main` -/

theorem fetchAndMatch_ok {K : Type} (w : World K) (tr : List (Event K))
    (cert : Certificate K) (buf p : GoString)
    (h : fetchAndMatch w = (tr, .ok (cert, buf, p))) :
    findKeyLocally w cert.Key = .ok p ∧
      ∀ e ∈ tr, e.isSshAdd = false ∧ e.isWriteFile = false ∧ e.isPrint = false := by
  unfold fetchAndMatch at h
  simp only [] at h
  repeat' split at h
  all_goals first
    | (simp only [Prod.mk.injEq, reduceCtorEq, and_false] at h; done)
    | skip
  all_goals
    simp only [Prod.mk.injEq, Except.ok.injEq] at h
    obtain ⟨rfl, rfl, rfl, rfl⟩ := h
    refine ⟨by assumption, ?_⟩
    intro e he
    simp only [List.mem_cons, List.mem_singleton] at he
    rcases he with rfl | rfl | rfl | rfl | rfl | he <;> first | exact ⟨rfl, rfl, rfl⟩ | cases he

theorem toInt64_of_range (x : Int) (h1 : -2 ^ 63 ≤ x) (h2 : x < 2 ^ 63) : toInt64 x = x := by
  unfold toInt64
  norm_num at h1 h2 ⊢
  omega

theorem secondsRemaining_of_range (validBefore : Nat) (now : Int)
    (hv : validBefore < 2 ^ 63) (h1 : 0 ≤ now) (h2 : now < 2 ^ 63) :
    secondsRemaining validBefore now = (validBefore : Int) - now := by
  have hv2 : (validBefore : Int) < 2 ^ 63 := by exact_mod_cast hv
  unfold secondsRemaining
  rw [toInt64_of_range now (by norm_num; omega) h2,
    toInt64_of_range (validBefore : Int) (by norm_num; omega) hv2]
  apply toInt64_of_range
  · norm_num at hv2 h2 ⊢
    omega
  · norm_num at hv2 h2 ⊢
    omega

theorem secondsRemaining_expired (validBefore : Nat) (now : Int)
    (h1 : -2 ^ 63 ≤ now) (h2 : now < 2 ^ 63) (hle : (validBefore : Int) ≤ now) :
    secondsRemaining validBefore now < 1 := by
  have hv2 : (validBefore : Int) < 2 ^ 63 := lt_of_le_of_lt hle h2
  unfold secondsRemaining
  rw [toInt64_of_range now h1 h2,
    toInt64_of_range (validBefore : Int) (by norm_num; omega) hv2,
    toInt64_of_range]
  · omega
  · norm_num at hv2 h2 ⊢
    omega
  · norm_num at hv2 h2 ⊢
    omega

theorem main_of_ok {K : Type} (w : World K) (tr : List (Event K))
    (cert : Certificate K) (buf p : GoString)
    (h : fetchAndMatch w = (tr, .ok (cert, buf, p))) :
    main w = (tr ++ (persistAndInstall w cert buf p).1, (persistAndInstall w cert buf p).2) := by
  unfold main
  rw [h]

theorem main_of_error {K : Type} (w : World K) (tr : List (Event K)) (o : Outcome)
    (h : fetchAndMatch w = (tr, .error o)) : main w = (tr, o) := by
  unfold main
  rw [h]

theorem scan_congr {K : Type} (w w' : World K) (sshDir : GoString) (key : K)
    (hr : w'.ReadFile = w.ReadFile) (hp : w'.ParseAuthorizedKey = w.ParseAuthorizedKey)
    (hm : w'.Marshal = w.Marshal) (l : List GoString) :
    findKeyLocally.scan w' sshDir key l = findKeyLocally.scan w sshDir key l := by
  induction l with
  | nil => rfl
  | cons n l ih => rw [scan_cons, scan_cons, ih, hr, hp, hm]

theorem persist_cases {K : Type} (w : World K) (path buf : GoString) :
    persist w path buf = [.writeFile path buf] ∨
      ∃ err, w.WriteFile path buf = .error err ∧
        persist w path buf = [.writeFile path buf, .print (.couldntWrite path err)] := by
  unfold persist
  cases hw : w.WriteFile path buf with
  | error err => exact Or.inr ⟨err, rfl, rfl⟩
  | ok _ => exact Or.inl rfl

theorem persist_filter_writeFile {K : Type} (w : World K) (path buf : GoString) :
    (persist w path buf).filter Event.isWriteFile = [.writeFile path buf] := by
  rcases persist_cases w path buf with h | ⟨err, -, h⟩ <;> rw [h] <;> rfl

theorem persist_filter_report {K : Type} (w : World K) (path buf : GoString) :
    (persist w path buf).filter Event.isAction = [.writeFile path buf] := by
  rcases persist_cases w path buf with h | ⟨err, -, h⟩ <;> rw [h] <;> rfl

theorem persist_no_sshAdd {K : Type} (w : World K) (path buf : GoString) :
    ∀ e ∈ persist w path buf, e.isSshAdd = false := by
  intro e he
  rcases persist_cases w path buf with h | ⟨err, -, h⟩ <;> rw [h] at he <;>
    simp at he <;> rcases he with rfl | rfl <;> rfl

/-- The three ways lines 115-131 can end. -/
theorem install_cases {K : Type} (w : World K) (cert : Certificate K) (path : GoString) :
    (secondsRemaining cert.ValidBefore w.now < 1 ∧
      install w cert path = ([.print .alreadyExpired], .exit 1)) ∨
    (1 ≤ secondsRemaining cert.ValidBefore w.now ∧
      ((∃ err, w.sshAdd (secondsRemaining cert.ValidBefore w.now)
            (strings.Replace1 path certPub []) = .error err ∧
          install w cert path =
            ([.printForInspection cert,
                .sshAdd (secondsRemaining cert.ValidBefore w.now)
                  (strings.Replace1 path certPub []),
                .print .errorInSshAdd], .exit 1)) ∨
        (w.sshAdd (secondsRemaining cert.ValidBefore w.now)
            (strings.Replace1 path certPub []) = .ok () ∧
          install w cert path =
            ([.printForInspection cert,
                .sshAdd (secondsRemaining cert.ValidBefore w.now)
                  (strings.Replace1 path certPub [])],
              .returned)))) := by
  unfold install
  simp only []
  by_cases hs : secondsRemaining cert.ValidBefore w.now < 1
  · left
    exact ⟨hs, by rw [if_pos hs]⟩
  · right
    refine ⟨by omega, ?_⟩
    rw [if_neg hs]
    cases ha : w.sshAdd (secondsRemaining cert.ValidBefore w.now)
        (strings.Replace1 path certPub []) with
    | error err => exact Or.inl ⟨err, rfl, rfl⟩
    | ok u => exact Or.inr ⟨rfl, rfl⟩

theorem persistAndInstall_eq {K : Type} (w : World K) (cert : Certificate K)
    (buf p : GoString) :
    persistAndInstall w cert buf p =
      (persist w (strings.Replace1 p dotPub certPub) buf ++
          (install w cert (strings.Replace1 p dotPub certPub)).1,
        (install w cert (strings.Replace1 p dotPub certPub)).2) := rfl

/-- The three ways lines 109-131 can end. -/
theorem persistAndInstall_cases {K : Type} (w : World K) (cert : Certificate K)
    (buf p : GoString) :
    (secondsRemaining cert.ValidBefore w.now < 1 ∧
      persistAndInstall w cert buf p =
        (persist w (strings.Replace1 p dotPub certPub) buf ++ [.print .alreadyExpired],
          .exit 1)) ∨
    (1 ≤ secondsRemaining cert.ValidBefore w.now ∧
      ((∃ err, w.sshAdd (secondsRemaining cert.ValidBefore w.now)
            (strings.Replace1 (strings.Replace1 p dotPub certPub) certPub []) = .error err ∧
          persistAndInstall w cert buf p =
            (persist w (strings.Replace1 p dotPub certPub) buf ++
              [.printForInspection cert,
                .sshAdd (secondsRemaining cert.ValidBefore w.now)
                  (strings.Replace1 (strings.Replace1 p dotPub certPub) certPub []),
                .print .errorInSshAdd], .exit 1)) ∨
        (w.sshAdd (secondsRemaining cert.ValidBefore w.now)
            (strings.Replace1 (strings.Replace1 p dotPub certPub) certPub []) = .ok () ∧
          persistAndInstall w cert buf p =
            (persist w (strings.Replace1 p dotPub certPub) buf ++
              [.printForInspection cert,
                .sshAdd (secondsRemaining cert.ValidBefore w.now)
                  (strings.Replace1 (strings.Replace1 p dotPub certPub) certPub [])],
              .returned)))) := by
  rw [persistAndInstall_eq]
  rcases install_cases w cert (strings.Replace1 p dotPub certPub) with
    ⟨hs, h⟩ | ⟨hs, ⟨err, ha, h⟩ | ⟨ha, h⟩⟩
  · exact Or.inl ⟨hs, by rw [h]⟩
  · exact Or.inr ⟨hs, Or.inl ⟨err, ha, by rw [h]⟩⟩
  · exact Or.inr ⟨hs, Or.inr ⟨ha, by rw [h]⟩⟩

theorem install_congr {K : Type} (w w' : World K)
    (hnow : w'.now = w.now) (hadd : w'.sshAdd = w.sshAdd)
    (cert : Certificate K) (path : GoString) :
    install w' cert path = install w cert path := by
  unfold install
  rw [hnow, hadd]

theorem withOutcomes_proj {K : Type} (w : World K)
    (wf : GoString → GoString → Except GoError Unit) (ar : K → Except GoError Unit) :
    (w.withOutcomes wf ar).HOME = w.HOME ∧
    (w.withOutcomes wf ar).SSH_AUTH_SOCK = w.SSH_AUTH_SOCK ∧
    (w.withOutcomes wf ar).printVersion = w.printVersion ∧
    (w.withOutcomes wf ar).environment = w.environment ∧
    (w.withOutcomes wf ar).args = w.args ∧
    (w.withOutcomes wf ar).LoadConfig = w.LoadConfig ∧
    (w.withOutcomes wf ar).httpGet = w.httpGet ∧
    (w.withOutcomes wf ar).ParseAuthorizedKey = w.ParseAuthorizedKey ∧
    (w.withOutcomes wf ar).Marshal = w.Marshal ∧
    (w.withOutcomes wf ar).asCertificate = w.asCertificate ∧
    (w.withOutcomes wf ar).Dial = w.Dial ∧
    (w.withOutcomes wf ar).ReadDir = w.ReadDir ∧
    (w.withOutcomes wf ar).ReadFile = w.ReadFile ∧
    (w.withOutcomes wf ar).now = w.now ∧
    (w.withOutcomes wf ar).sshAdd = w.sshAdd ∧
    (w.withOutcomes wf ar).WriteFile = wf :=
  ⟨rfl, rfl, rfl, rfl, rfl, rfl, rfl, rfl, rfl, rfl, rfl, rfl, rfl, rfl, rfl, rfl⟩

theorem findKeyLocally_congr {K : Type} (w : World K)
    (wf : GoString → GoString → Except GoError Unit) (ar : K → Except GoError Unit) (key : K) :
    findKeyLocally (w.withOutcomes wf ar) key = findKeyLocally w key := by
  obtain ⟨h1, -, -, -, -, -, -, h8, h9, -, -, h12, h13, -⟩ := withOutcomes_proj w wf ar
  unfold findKeyLocally
  simp only [h1, h12]
  cases w.ReadDir (w.HOME ++ lit "/.ssh") with
  | error err => rfl
  | ok l => exact scan_congr w (w.withOutcomes wf ar) _ key h13 h8 h9 l

theorem fetchAndMatch_congr {K : Type} (w : World K)
    (wf : GoString → GoString → Except GoError Unit) (ar : K → Except GoError Unit) :
    fetchAndMatch (w.withOutcomes wf ar) = fetchAndMatch w := by
  obtain ⟨h1, h2, h3, h4, h5, h6, h7, h8, -, h10, h11, -⟩ := withOutcomes_proj w wf ar
  unfold fetchAndMatch
  simp only [findKeyLocally_congr, h1, h2, h3, h4, h5, h6, h7, h8, h10, h11]

/-! ## Path derivation -/

namespace strings

theorem lastIndex_append_pub (a : GoString) : LastIndex (a ++ dotPub) dotPub = some a.length := by
  induction a with
  | nil => rfl
  | cons c a ih =>
    show LastIndex (c :: (a ++ dotPub)) dotPub = _
    unfold LastIndex
    rw [ih]
    rfl

theorem trimSuffix_append (a suf : GoString) : TrimSuffix (a ++ suf) suf = a := by
  unfold TrimSuffix
  rw [if_pos ((hasSuffix_iff _ _).2 ⟨a, rfl⟩)]
  simp

theorem deleteLast_append_pub (a : GoString) : deleteLast (a ++ dotPub) dotPub = a := by
  unfold deleteLast
  rw [lastIndex_append_pub]
  simp

theorem firstAt_of_index (s old a b : GoString) (h : s = a ++ old ++ b)
    (hi : Index s old = some a.length) : FirstAt s old a b := by
  obtain ⟨a0, b0, h0, hl⟩ := index_some s old a.length hi
  have e : a0 ++ (old ++ b0) = a ++ (old ++ b) := by
    rw [← List.append_assoc, ← List.append_assoc, ← h0.1, ← h]
  have ha : a0 = a := List.append_inj_left e hl
  subst ha
  exact ⟨h, h0.2⟩

end strings

/-- C10. For every string `p`, rewriting `.pub` to `-cert.pub` once and then `-cert.pub`
to the empty string once equals deleting the leftmost `.pub` of `p`; the inserted
`-cert.pub` is the leftmost `-cert.pub` of the intermediate string; and for `p` ending in
`.pub` the result is `p` without its trailing `.pub` exactly when deleting the first and
deleting the last occurrence of `.pub` agree. -/
theorem recovered_path_deletes_first_pub (p : GoString) :
    strings.Replace1 (strings.Replace1 p dotPub certPub) certPub [] =
        strings.Replace1 p dotPub [] ∧
      (∀ j, strings.Index p dotPub = some j →
        strings.Index (strings.Replace1 p dotPub certPub) certPub = some j) ∧
      (strings.HasSuffix p dotPub = true →
        (strings.Replace1 (strings.Replace1 p dotPub certPub) certPub [] =
            strings.TrimSuffix p dotPub ↔
          strings.Replace1 p dotPub [] = strings.deleteLast p dotPub)) := by
  refine ⟨strings.replace_compose p, ?_, ?_⟩
  · intro j hj
    obtain ⟨a, b, hf, hl⟩ := strings.index_some p dotPub j hj
    rw [strings.replace1_of_firstAt p dotPub certPub a b (by decide) hf, ← hl]
    exact strings.index_of_firstAt _ _ a b (strings.firstAt_cert p a b hf)
  · intro hs
    obtain ⟨a, rfl⟩ := (strings.hasSuffix_iff _ _).1 hs
    rw [strings.replace_compose, strings.trimSuffix_append, strings.deleteLast_append_pub]

theorem recovered_path_deletes_first_pub_witness :
    strings.Replace1 (strings.Replace1 (lit "id_ed25519.pub") dotPub certPub) certPub [] =
        strings.TrimSuffix (lit "id_ed25519.pub") dotPub ↔
      strings.Replace1 (lit "id_ed25519.pub") dotPub [] =
        strings.deleteLast (lit "id_ed25519.pub") dotPub :=
  (recovered_path_deletes_first_pub (lit "id_ed25519.pub")).2.2 (by decide)

/-- The ordinary case of the path derivation: for a path `p` returned by `findKeyLocally`
whose trailing `.pub` is also its leftmost `.pub`, the certificate path is `p` with the
trailing `.pub` replaced by `-cert.pub`, and the recovered private-key path is `p`
without its trailing `.pub`. -/
theorem path_derivation_invertible {K : Type} (w : World K) (key : K) (p : GoString)
    (hfind : findKeyLocally w key = .ok p)
    (hfirst : strings.Index p dotPub = some (p.length - dotPub.length)) :
    strings.TrimSuffix p dotPub ++ dotPub = p ∧
      strings.Replace1 p dotPub certPub = strings.TrimSuffix p dotPub ++ certPub ∧
      strings.Replace1 (strings.Replace1 p dotPub certPub) certPub [] =
        strings.TrimSuffix p dotPub := by
  have hs : strings.HasSuffix p dotPub = true := by
    unfold findKeyLocally at hfind
    simp only [] at hfind
    split at hfind
    · cases hfind
    · obtain ⟨n, -, hm, rfl⟩ := scan_ok_sound w _ key _ p hfind
      exact entryPath_hasSuffix _ n ((matchesKey_iff w _ key n).1 hm).1
  obtain ⟨a, rfl⟩ := (strings.hasSuffix_iff _ _).1 hs
  have hf : strings.FirstAt (a ++ dotPub) dotPub a [] :=
    strings.firstAt_of_index _ _ a [] (by simp) (by simpa using hfirst)
  rw [strings.replace_compose, strings.trimSuffix_append,
    strings.replace1_of_firstAt _ dotPub certPub a [] (by decide) hf,
    strings.replace1_of_firstAt _ dotPub [] a [] (by decide) hf]
  simp

theorem path_derivation_invertible_witness :
    strings.TrimSuffix (lit "/home/u/.ssh/id_ed25519.pub") dotPub ++ dotPub =
        lit "/home/u/.ssh/id_ed25519.pub" ∧
      strings.Replace1 (lit "/home/u/.ssh/id_ed25519.pub") dotPub certPub =
        strings.TrimSuffix (lit "/home/u/.ssh/id_ed25519.pub") dotPub ++ certPub ∧
      strings.Replace1 (strings.Replace1 (lit "/home/u/.ssh/id_ed25519.pub") dotPub certPub)
          certPub [] =
        strings.TrimSuffix (lit "/home/u/.ssh/id_ed25519.pub") dotPub :=
  path_derivation_invertible worldValid (.bare 7) (lit "/home/u/.ssh/id_ed25519.pub")
    (by rfl) (by decide)

/-- C1, the code at the failing input: for the key file `x.pubkey.pub`, which line 141
accepts because its name ends in `.pub`, `findKeyLocally` returns
`/home/u/.ssh/x.pubkey.pub`; lines 109 and 121 rewrite the leftmost `.pub` instead of
the trailing one, so the recovered private-key path is `/home/u/.ssh/xkey.pub`, not
`/home/u/.ssh/x.pubkey`, and that is the path `ssh-add` is run on. -/
theorem path_derivation_not_invertible :
    findKeyLocally worldPubInName (.bare 7) = .ok (lit "/home/u/.ssh/x.pubkey.pub") ∧
      strings.Replace1 (strings.Replace1 (lit "/home/u/.ssh/x.pubkey.pub") dotPub certPub)
          certPub [] = lit "/home/u/.ssh/xkey.pub" ∧
      strings.TrimSuffix (lit "/home/u/.ssh/x.pubkey.pub") dotPub =
        lit "/home/u/.ssh/x.pubkey" ∧
      strings.Replace1 (strings.Replace1 (lit "/home/u/.ssh/x.pubkey.pub") dotPub certPub)
          certPub [] ≠ strings.TrimSuffix (lit "/home/u/.ssh/x.pubkey.pub") dotPub ∧
      (main worldPubInName).1.filter Event.isSshAdd =
        [.sshAdd 3600 (lit "/home/u/.ssh/xkey.pub")] :=
  ⟨by rfl, by decide, by decide, by decide, by decide⟩

/-! ## Persistence -/

/-- The ordinary case of the persistence step: in every run in which `findKeyLocally`
returns `p = d/stem.pub` and the trailing `.pub` is also the leftmost `.pub` of `p`, the
certificate bytes are written exactly once, to `d/stem-cert.pub`. -/
theorem certificate_written_next_to_key {K : Type} (w : World K) (tr : List (Event K))
    (cert : Certificate K) (buf p d stem : GoString)
    (hrun : fetchAndMatch w = (tr, .ok (cert, buf, p)))
    (hp : p = d ++ lit "/" ++ stem ++ dotPub)
    (hfirst : strings.Index p dotPub = some (d ++ lit "/" ++ stem).length) :
    findKeyLocally w cert.Key = .ok p ∧
      (main w).1.filter Event.isWriteFile =
        [.writeFile (d ++ lit "/" ++ stem ++ certPub) buf] := by
  obtain ⟨hfind, hquiet⟩ := fetchAndMatch_ok w tr cert buf p hrun
  refine ⟨hfind, ?_⟩
  have hf : strings.FirstAt p dotPub (d ++ lit "/" ++ stem) [] :=
    strings.firstAt_of_index p dotPub _ [] (by simp [hp]) hfirst
  have hrep : strings.Replace1 p dotPub certPub = d ++ lit "/" ++ stem ++ certPub := by
    rw [strings.replace1_of_firstAt p dotPub certPub _ [] (by decide) hf]
    simp
  have htr : tr.filter Event.isWriteFile = [] := by
    rw [List.filter_eq_nil_iff]
    intro e he
    simp [(hquiet e he).2.1]
  rw [main_of_ok w tr cert buf p hrun, List.filter_append, htr, List.nil_append]
  rcases persistAndInstall_cases w cert buf p with ⟨-, h⟩ | ⟨-, ⟨err, -, h⟩ | ⟨-, h⟩⟩ <;>
    rw [h, List.filter_append, persist_filter_writeFile, hrep] <;> rfl

theorem certificate_written_next_to_key_witness :
    findKeyLocally worldValid (Certificate.mk (SampleKey.bare 7) 1700003600).Key =
        .ok (lit "/home/u/.ssh/id_ed25519.pub") ∧
      (main worldValid).1.filter Event.isWriteFile =
        [.writeFile (lit "/home/u/.ssh" ++ lit "/" ++ lit "id_ed25519" ++ certPub)
          (lit "cert-7")] :=
  certificate_written_next_to_key worldValid (fetchAndMatch worldValid).1
    ⟨.bare 7, 1700003600⟩ (lit "cert-7") (lit "/home/u/.ssh/id_ed25519.pub")
    (lit "/home/u/.ssh") (lit "id_ed25519") (by rfl) (by decide) (by decide)

/-- C2, the code at the failing input: with `HOME=/home/bob.pub` the matched path is
`/home/bob.pub/.ssh` + `/` + `id_rsa` + `.pub`; line 109 rewrites the leftmost `.pub`,
so the certificate is written to `/home/bob-cert.pub/.ssh/id_rsa.pub`, not next to the
key at `/home/bob.pub/.ssh/id_rsa-cert.pub`, and `ssh-add` is then run on
`/home/bob/.ssh/id_rsa.pub`. -/
theorem certificate_written_elsewhere :
    findKeyLocally worldPubInHome (.bare 7) =
        .ok (lit "/home/bob.pub/.ssh" ++ lit "/" ++ lit "id_rsa" ++ dotPub) ∧
      (main worldPubInHome).1.filter Event.isWriteFile =
        [.writeFile (lit "/home/bob-cert.pub/.ssh/id_rsa.pub") (lit "cert-7")] ∧
      lit "/home/bob-cert.pub/.ssh/id_rsa.pub" ≠
        lit "/home/bob.pub/.ssh" ++ lit "/" ++ lit "id_rsa" ++ certPub ∧
      (main worldPubInHome).1.filter Event.isSshAdd =
        [.sshAdd 3600 (lit "/home/bob/.ssh/id_rsa.pub")] :=
  ⟨by rfl, by decide, by decide, by decide⟩

/-! ## Expiry and installation -/

/-- C3, the code at the failing input: for a certificate whose validity-before is
`ssh.CertTimeInfinity` (2^64 - 1) and the clock at 1700000000, line 115 computes
-1700000001, not 2^64 - 1 - 1700000000, and the run ends with "already expired" and exit
status 1 without running `ssh-add`. -/
theorem secondsRemaining_wraps_at_infinity :
    secondsRemaining 18446744073709551615 1700000000 = -1700000001 ∧
      secondsRemaining 18446744073709551615 1700000000 ≠
        (18446744073709551615 : Int) - 1700000000 ∧
      main worldForever =
        ([.loadConfig (lit "/home/u/.ssh_ca/requester_config.json"),
          .httpGet (lit "https://ca.example/cert/requests/42"), .dial (lit "/tmp/agent.sock"),
          .agentRemove (.bare 7), .findKeyLocally (.bare 7),
          .writeFile (lit "/home/u/.ssh/id_ed25519-cert.pub") (lit "cert-7-forever"),
          .print .alreadyExpired], .exit 1) :=
  ⟨by decide, by decide, by decide⟩

/-- C4. In every run that reaches the expiry check, `ssh-add` is run if and only if the
computed remaining seconds are at least 1; whenever it is run its TTL argument is the
computed value and at least 1; and when the validity-before timestamp is not later than
the current time the run ends by printing "already expired" and exits with status 1
without running `ssh-add`. -/
theorem expiry_gate {K : Type} (w : World K) (tr : List (Event K))
    (cert : Certificate K) (buf p : GoString)
    (hrun : fetchAndMatch w = (tr, .ok (cert, buf, p))) :
    ((∃ ttl path, Event.sshAdd ttl path ∈ (main w).1) ↔
        1 ≤ secondsRemaining cert.ValidBefore w.now) ∧
      (∀ ttl path, Event.sshAdd ttl path ∈ (main w).1 →
        ttl = secondsRemaining cert.ValidBefore w.now ∧ 1 ≤ ttl) ∧
      (-2 ^ 63 ≤ w.now → w.now < 2 ^ 63 → (cert.ValidBefore : Int) ≤ w.now →
        (main w).2 = .exit 1 ∧ (main w).2.status = 1 ∧
          (main w).1.getLast? = some (.print .alreadyExpired) ∧
          ∀ ttl path, Event.sshAdd ttl path ∉ (main w).1) := by
  obtain ⟨-, hquiet⟩ := fetchAndMatch_ok w tr cert buf p hrun
  have hmem : ∀ ttl path (l : List (Event K)),
      Event.sshAdd ttl path ∈ tr ++ (persist w (strings.Replace1 p dotPub certPub) buf ++ l) →
      Event.sshAdd ttl path ∈ l := by
    intro ttl path l h
    rcases List.mem_append.1 h with h | h
    · have := (hquiet _ h).1
      simp [Event.isSshAdd] at this
    · rcases List.mem_append.1 h with h | h
      · have := persist_no_sshAdd w _ _ _ h
        simp [Event.isSshAdd] at this
      · exact h
  rw [main_of_ok w tr cert buf p hrun]
  rcases persistAndInstall_cases w cert buf p with ⟨hs, h⟩ | ⟨hs, ⟨err, -, h⟩ | ⟨-, h⟩⟩ <;>
    rw [h] <;> simp only []
  · have hno : ∀ ttl path, Event.sshAdd ttl path ∉
        tr ++ (persist w (strings.Replace1 p dotPub certPub) buf ++ [.print .alreadyExpired]) := by
      intro ttl path hm
      have := hmem ttl path _ hm
      simp at this
    refine ⟨⟨?_, ?_⟩, ?_, ?_⟩
    · rintro ⟨ttl, path, hm⟩
      exact absurd hm (hno ttl path)
    · intro h1
      omega
    · intro ttl path hm
      exact absurd hm (hno ttl path)
    · intro _ _ _
      refine ⟨trivial, rfl, ?_, hno⟩
      rw [← List.append_assoc, List.getLast?_append]
      rfl
  · refine ⟨⟨fun _ => hs, fun _ => ⟨secondsRemaining cert.ValidBefore w.now,
      strings.Replace1 (strings.Replace1 p dotPub certPub) certPub [], ?_⟩⟩, ?_, ?_⟩
    · simp
    · intro ttl path hm
      have := hmem ttl path _ hm
      simp at this
      rw [this.1]
      exact ⟨rfl, hs⟩
    · intro h1 h2 h3
      have := secondsRemaining_expired cert.ValidBefore w.now h1 h2 h3
      omega
  · refine ⟨⟨fun _ => hs, fun _ => ⟨secondsRemaining cert.ValidBefore w.now,
      strings.Replace1 (strings.Replace1 p dotPub certPub) certPub [], ?_⟩⟩, ?_, ?_⟩
    · simp
    · intro ttl path hm
      have := hmem ttl path _ hm
      simp at this
      rw [this.1]
      exact ⟨rfl, hs⟩
    · intro h1 h2 h3
      have := secondsRemaining_expired cert.ValidBefore w.now h1 h2 h3
      omega

theorem expiry_gate_witness :
    (main worldExpired).2 = .exit 1 ∧ (main worldExpired).2.status = 1 ∧
      (main worldExpired).1.getLast? = some (.print .alreadyExpired) ∧
      ∀ ttl path, Event.sshAdd ttl path ∉ (main worldExpired).1 :=
  (expiry_gate worldExpired (fetchAndMatch worldExpired).1 ⟨.bare 7, 1700003600⟩
    (lit "cert-7") (lit "/home/u/.ssh/id_ed25519.pub") (by rfl)).2.2
    (by decide) (by decide) (by decide)

/-- C5, the code at the failing input: when the response body parses to a bare public
key, the unchecked type assertion of line 93 panics; the process ends with exit status 2,
not 1, after the configuration load and the fetch and before any agent, key-store,
file-write or `ssh-add` action. -/
theorem bare_key_panics :
    main worldBareKey =
        ([.loadConfig (lit "/home/u/.ssh_ca/requester_config.json"),
          .httpGet (lit "https://ca.example/cert/requests/42")], .panic) ∧
      (main worldBareKey).2.status = 2 :=
  ⟨by decide, by decide⟩

/-! ## Key matching -/

theorem findKeyLocally_with_readDir {K : Type} (w : World K) (key : K)
    (entries : List GoString) :
    findKeyLocally (w.withEntries entries) key =
      findKeyLocally.scan w (w.HOME ++ lit "/.ssh") key entries := by
  unfold findKeyLocally
  show findKeyLocally.scan _ _ _ _ = findKeyLocally.scan _ _ _ _
  apply scan_congr <;> rfl

/-- C6, amended. When a `.pub` entry that cannot be read or parsed is listed with no
matching entry before it, `findKeyLocally` returns a read or parse error and no path,
whatever follows that entry. -/
theorem unreadable_candidate_aborts_scan {K : Type} (w : World K) (key : K)
    (pre : List GoString) (e : GoString) (post : List GoString)
    (hdir : w.ReadDir (w.HOME ++ lit "/.ssh") = .ok (pre ++ e :: post))
    (hbad : uninspectable w (w.HOME ++ lit "/.ssh") e = true)
    (hpre : ∀ n ∈ pre, matchesKey w (w.HOME ++ lit "/.ssh") key n = false) :
    ∃ err, findKeyLocally w key = .error err ∧ err.isReadOrParse = true := by
  rw [findKeyLocally_of_readDir w key _ hdir]
  exact scan_abort w _ key pre e post hpre hbad

theorem unreadable_candidate_aborts_scan_witness :
    ∃ err, findKeyLocally worldBadThenMatch (.bare 7) = .error err ∧
      err.isReadOrParse = true :=
  unreadable_candidate_aborts_scan worldBadThenMatch (.bare 7) [] (lit "bad.pub")
    [lit "id.pub"] (by rfl) (by decide) (by decide)

/-- C6 fails as stated: `b.pub` cannot be read, yet `findKeyLocally` returns the path of
`a.pub`, which is listed before it. -/
theorem unreadable_candidate_after_match_ignored :
    worldMatchThenBad.ReadDir (lit "/home/u/.ssh") = .ok [lit "a.pub", lit "b.pub"] ∧
      strings.HasSuffix (lit "b.pub") dotPub = true ∧
      worldMatchThenBad.ReadFile (lit "/home/u/.ssh/b.pub") =
        .error (lit "permission denied") ∧
      findKeyLocally worldMatchThenBad (.bare 7) = .ok (lit "/home/u/.ssh/a.pub") :=
  ⟨by rfl, by decide, by rfl, by rfl⟩

/-- C7, amended. In a key store all of whose `.pub` entries can be read and parsed:
if exactly one entry matches the target, `findKeyLocally` returns that entry's path, and
so it does for every permutation of the enumeration order; and when several entries
match, it returns the path of the first of them in enumeration order. -/
theorem unique_match_order_independent {K : Type} (w : World K) (key : K)
    (entries : List GoString)
    (hdir : w.ReadDir (w.HOME ++ lit "/.ssh") = .ok entries)
    (hgood : ∀ n ∈ entries, uninspectable w (w.HOME ++ lit "/.ssh") n = false) :
    (∀ e ∈ entries, matchesKey w (w.HOME ++ lit "/.ssh") key e = true →
        (∀ n ∈ entries, matchesKey w (w.HOME ++ lit "/.ssh") key n = true → n = e) →
        findKeyLocally w key = .ok (w.HOME ++ lit "/.ssh" ++ lit "/" ++ e) ∧
          ∀ entries' : List GoString, entries'.Perm entries →
            findKeyLocally (w.withEntries entries') key =
              .ok (w.HOME ++ lit "/.ssh" ++ lit "/" ++ e)) ∧
      (∀ pre e post, entries = pre ++ e :: post →
        matchesKey w (w.HOME ++ lit "/.ssh") key e = true →
        (∀ n ∈ pre, matchesKey w (w.HOME ++ lit "/.ssh") key n = false) →
        findKeyLocally w key = .ok (w.HOME ++ lit "/.ssh" ++ lit "/" ++ e)) := by
  constructor
  · intro e he hm huniq
    have key_fact : ∀ l : List GoString, l.Perm entries →
        findKeyLocally.scan w (w.HOME ++ lit "/.ssh") key l =
          .ok (w.HOME ++ lit "/.ssh" ++ lit "/" ++ e) := by
      intro l hl
      obtain ⟨n, hn, hnm, hs⟩ := scan_finds_some w _ key l
        (fun n hn => hgood n (hl.mem_iff.1 hn)) ⟨e, hl.mem_iff.2 he, hm⟩
      rw [hs, huniq n (hl.mem_iff.1 hn) hnm]
      rfl
    refine ⟨?_, ?_⟩
    · rw [findKeyLocally_of_readDir w key _ hdir]
      exact key_fact entries (List.Perm.refl _)
    · intro entries' hperm
      rw [findKeyLocally_with_readDir]
      exact key_fact entries' hperm
  · intro pre e post hsplit hm hpre
    rw [findKeyLocally_of_readDir w key _ hdir, hsplit]
    refine scan_first_match w _ key pre e post (fun n hn => ⟨?_, hpre n hn⟩) hm
    exact hgood n (by rw [hsplit]; exact List.mem_append_left _ hn)

theorem unique_match_order_independent_witness :
    findKeyLocally worldTwoKeys (.bare 7) =
        .ok (worldTwoKeys.HOME ++ lit "/.ssh" ++ lit "/" ++ lit "id.pub") ∧
      ∀ entries' : List GoString,
        entries'.Perm [lit "config", lit "other.pub", lit "id.pub"] →
        findKeyLocally (worldTwoKeys.withEntries entries') (.bare 7) =
          .ok (worldTwoKeys.HOME ++ lit "/.ssh" ++ lit "/" ++ lit "id.pub") :=
  (unique_match_order_independent worldTwoKeys (.bare 7)
    [lit "config", lit "other.pub", lit "id.pub"] (by rfl) (by decide)).1
    (lit "id.pub") (by decide) (by decide) (by decide)

/-- C7 fails as stated: `id.pub` is the only entry whose key matches the target, but with
the unreadable `bad.pub` listed first `findKeyLocally` returns a read error, and with the
two entries in the other order it returns the path of `id.pub`. -/
theorem unique_match_depends_on_order :
    ([lit "bad.pub", lit "id.pub"].filter
        (matchesKey worldBadThenMatch (lit "/home/u/.ssh") (.bare 7)) = [lit "id.pub"]) ∧
      findKeyLocally worldBadThenMatch (.bare 7) =
        .error (.readFile (lit "/home/u/.ssh/bad.pub") (lit "permission denied")) ∧
      findKeyLocally (worldBadThenMatch.withEntries [lit "id.pub", lit "bad.pub"])
          (.bare 7) = .ok (lit "/home/u/.ssh/id.pub") :=
  ⟨by decide, by rfl, by rfl⟩

/-- C8. In a key store all of whose `.pub` entries can be read and parsed, if every such
entry marshals to bytes different from the target's, `findKeyLocally` fails with the
key-not-found error; and whenever `findKeyLocally` returns a path, the path is
`sshDir/name` for a listed entry whose name ends in `.pub` and whose parsed key marshals
to exactly the bytes of the target. -/
theorem byte_exact_matching {K : Type} (w : World K) (key : K) (entries : List GoString)
    (hdir : w.ReadDir (w.HOME ++ lit "/.ssh") = .ok entries) :
    ((∀ n ∈ entries, strings.HasSuffix n dotPub = true →
          ∃ pubBuf pubKey, w.ReadFile (w.HOME ++ lit "/.ssh" ++ lit "/" ++ n) = .ok pubBuf ∧
            w.ParseAuthorizedKey pubBuf = .ok pubKey ∧ w.Marshal pubKey ≠ w.Marshal key) →
        findKeyLocally w key = .error .notFound) ∧
      (∀ p, findKeyLocally w key = .ok p →
        ∃ name ∈ entries, strings.HasSuffix name dotPub = true ∧
          p = w.HOME ++ lit "/.ssh" ++ lit "/" ++ name ∧
          ∃ pubBuf pubKey, w.ReadFile p = .ok pubBuf ∧
            w.ParseAuthorizedKey pubBuf = .ok pubKey ∧ w.Marshal pubKey = w.Marshal key) := by
  rw [findKeyLocally_of_readDir w key _ hdir]
  constructor
  · intro h
    apply scan_not_found
    intro n hn
    cases hs : strings.HasSuffix n dotPub with
    | false => simp [uninspectable, matchesKey, entryKey, hs]
    | true =>
      obtain ⟨pubBuf, pubKey, hr, hp, hm⟩ := h n hn hs
      have hr2 : w.ReadFile (entryPath (w.HOME ++ lit "/.ssh") n) = .ok pubBuf := hr
      simp [uninspectable, matchesKey, entryKey, hs, hr2, hp, hm]
  · intro p hp
    obtain ⟨n, hn, hm, rfl⟩ := scan_ok_sound w _ key entries p hp
    obtain ⟨hs, pubBuf, pubKey, hr, hpk, hmar⟩ := (matchesKey_iff w _ key n).1 hm
    exact ⟨n, hn, hs, rfl, pubBuf, pubKey, hr, hpk, hmar⟩

theorem byte_exact_matching_witness :
    findKeyLocally worldNoMatch (.bare 7) = .error .notFound :=
  (byte_exact_matching worldNoMatch (.bare 7) [lit "config", lit "other.pub"] (by rfl)).1
    (by
      intro n hn hs
      simp only [List.mem_cons, List.mem_singleton, List.not_mem_nil, or_false] at hn
      rcases hn with rfl | rfl
      · exact absurd hs (by decide)
      · exact ⟨lit "key-8", .bare 8, by rfl, by rfl, by decide⟩)

/-! ## Non-fatal steps -/

/-- C9. Two runs that differ only in the outcomes of the certificate file write and of
the agent removal end the same way and perform the same actions, the report of a failed
write apart: same exit, same expiry decision, same `ssh-add` invocations with the same TTL
and private-key path. In particular a run whose write fails, with a matched certificate
that has at least one second left and a succeeding `ssh-add`, runs `ssh-add` and ends with
exit status 0. -/
theorem write_failure_does_not_influence_install {K : Type} (w : World K)
    (wf : GoString → GoString → Except GoError Unit) (ar : K → Except GoError Unit) :
    (main (w.withOutcomes wf ar)).2 = (main w).2 ∧
      (main (w.withOutcomes wf ar)).1.filter Event.isAction =
        (main w).1.filter Event.isAction ∧
      (Event.print Msg.alreadyExpired ∈ (main (w.withOutcomes wf ar)).1 ↔
        Event.print Msg.alreadyExpired ∈ (main w).1) ∧
      (∀ ttl path,
        Event.sshAdd ttl path ∈ (main (w.withOutcomes wf ar)).1 ↔
          Event.sshAdd ttl path ∈ (main w).1) ∧
      (∀ tr cert buf p err, fetchAndMatch w = (tr, .ok (cert, buf, p)) →
        w.WriteFile (strings.Replace1 p dotPub certPub) buf = .error err →
        1 ≤ secondsRemaining cert.ValidBefore w.now →
        w.sshAdd (secondsRemaining cert.ValidBefore w.now)
            (strings.Replace1 (strings.Replace1 p dotPub certPub) certPub []) = .ok () →
        (main w).2 = .returned ∧ (main w).2.status = 0 ∧
          Event.sshAdd (secondsRemaining cert.ValidBefore w.now)
            (strings.Replace1 (strings.Replace1 p dotPub certPub) certPub []) ∈ (main w).1) := by
  have hout : (main (w.withOutcomes wf ar)).2 = (main w).2 ∧
      (main (w.withOutcomes wf ar)).1.filter Event.isAction =
        (main w).1.filter Event.isAction := by
    have hfm := fetchAndMatch_congr w wf ar
    rcases hr : fetchAndMatch w with ⟨tr, (o | ⟨cert, buf, p⟩)⟩
    · rw [hr] at hfm
      rw [main_of_error _ tr o hfm, main_of_error w tr o hr]
      exact ⟨rfl, rfl⟩
    · rw [hr] at hfm
      rw [main_of_ok _ tr cert buf p hfm, main_of_ok w tr cert buf p hr,
        persistAndInstall_eq, persistAndInstall_eq,
        install_congr w (w.withOutcomes wf ar) rfl rfl]
      generalize install w cert (strings.Replace1 p dotPub certPub) = r
      refine ⟨rfl, ?_⟩
      show List.filter _ (tr ++ (_ ++ r.1)) = List.filter _ (tr ++ (_ ++ r.1))
      simp only [List.filter_append, persist_filter_report]
  have hiff : ∀ e : Event K, e.isAction = true →
      (e ∈ (main (w.withOutcomes wf ar)).1 ↔ e ∈ (main w).1) := by
    intro e he
    have h1 : ∀ l : List (Event K), e ∈ l ↔ e ∈ l.filter Event.isAction := by
      intro l
      simp [List.mem_filter, he]
    rw [h1, h1 (main w).1, hout.2]
  refine ⟨hout.1, hout.2, hiff _ rfl, fun ttl path => hiff _ rfl, ?_⟩
  intro tr cert buf p err hrun _ hs ha
  rw [main_of_ok w tr cert buf p hrun]
  rcases persistAndInstall_cases w cert buf p with
    ⟨hs', h⟩ | ⟨hs', ⟨err', ha', h⟩ | ⟨ha', h⟩⟩
  · omega
  · rw [ha] at ha'
    cases ha'
  · rw [h]
    exact ⟨rfl, rfl, by simp⟩

theorem write_failure_does_not_influence_install_witness :
    (main worldWriteFails).2 = .returned ∧ (main worldWriteFails).2.status = 0 ∧
      Event.sshAdd 3600 (lit "/home/u/.ssh/id_ed25519") ∈ (main worldWriteFails).1 :=
  (write_failure_does_not_influence_install worldWriteFails (fun _ _ => .ok ())
    (fun _ => .ok ())).2.2.2.2 (fetchAndMatch worldWriteFails).1 ⟨.bare 7, 1700003600⟩
    (lit "cert-7") (lit "/home/u/.ssh/id_ed25519.pub") (lit "read-only file system")
    (by rfl) (by rfl) (by decide) (by rfl)

end get_cert
